import Mathlib

set_option maxHeartbeats 1000000

/-!
Shallow embedding of the field-extraction engine of this repository
(`backend/clean_extractor.py`) and verification of the frozen claims.

Strings are modelled as Lean `String` (a wrapper around `List Char`), and the
concrete regular expressions of the source are translated into explicit
scanning functions that reproduce Python's leftmost-match, ordered-alternation,
greedy-with-backtracking semantics for exactly the patterns appearing in the
source.  The spaCy NLP model and the file readers perform I/O or run an
external model; they enter the embedding as explicit parameters (`ents`,
reader functions), mirroring the spec's description of them as external
collaborators.  Character classes (`\s`, `\d`, `[a-zA-Z]`, lower/upper casing)
are modelled at the ASCII level, which is exact for the byte-oriented classes
used by the source patterns.
-/

/-! ## Python-like character and string primitives -/

/-- Python whitespace (`str.strip`, `str.split`, regex `\s`), ASCII part. -/
def pyIsSpace (c : Char) : Bool :=
  c = ' ' || c = '\t' || c = '\n' || c = '\r' || c = '\x0b' || c = '\x0c'

/-- Regex `\w` (word character), ASCII part: used for `\b` boundaries. -/
def isWordChar (c : Char) : Bool :=
  c.isAlphanum || c = '_'

/-- Length of the leading run of characters satisfying `p`. -/
def runLen (p : Char → Bool) (l : List Char) : Nat :=
  (l.takeWhile p).length

/-- The list `[n, n-1, ..., 1]`: descending quantifier lengths for a greedy
`+`/`*` regex loop that backtracks from the maximal run down. -/
def countdownTo1 (n : Nat) : List Nat :=
  (List.range n).map (fun i => n - i)

/-- The list `[n, n-1, ..., 0]`: descending lengths for a greedy `*` loop. -/
def countdownTo0 (n : Nat) : List Nat :=
  (List.range (n + 1)).map (fun i => n - i)

/-- Strip characters satisfying `p` from both ends of a list. -/
def stripList (p : Char → Bool) (l : List Char) : List Char :=
  ((l.dropWhile p).reverse.dropWhile p).reverse

/-- Python `str.strip()` (whitespace strip on both ends). -/
def pyStrip (s : String) : String :=
  String.mk (stripList pyIsSpace s.data)

/-- Helper of `pySplit`: accumulate the current word (reversed in `cur`). -/
def pySplitAux (cur : List Char) : List Char → List (List Char)
  | [] => if cur = [] then [] else [cur.reverse]
  | c :: r =>
    if pyIsSpace c then
      if cur = [] then pySplitAux [] r else cur.reverse :: pySplitAux [] r
    else pySplitAux (c :: cur) r

/-- Python `str.split()` with no argument: split on whitespace runs,
discarding empty pieces. -/
def pySplit (s : String) : List String :=
  (pySplitAux [] s.data).map String.mk

/-- Helper of `pySplitLines`: accumulate the current line (reversed). -/
def pySplitLinesAux (cur : List Char) : List Char → List (List Char)
  | [] => if cur = [] then [] else [cur.reverse]
  | '\r' :: '\n' :: r => cur.reverse :: pySplitLinesAux [] r
  | c :: r =>
    if c = '\n' || c = '\r' || c = '\x0b' || c = '\x0c' ||
       c = '\x1c' || c = '\x1d' || c = '\x1e' || c = '\x85' ||
       c = '\u2028' || c = '\u2029' then
      cur.reverse :: pySplitLinesAux [] r
    else
      pySplitLinesAux (c :: cur) r

/-- Python `str.splitlines()`. -/
def pySplitLines (s : String) : List String :=
  (pySplitLinesAux [] s.data).map String.mk

/-- One step of whitespace-run collapsing (regex `re.sub(r"\s+", " ", s)`):
`b` records whether the previous character was whitespace. -/
def collapseWsAux (b : Bool) : List Char → List Char
  | [] => []
  | c :: r =>
    if pyIsSpace c then
      if b then collapseWsAux true r else ' ' :: collapseWsAux true r
    else c :: collapseWsAux false r

/-- `re.sub(r"\s+", " ", s)`: replace each whitespace run by a single space. -/
def collapseWs (s : String) : String :=
  String.mk (collapseWsAux false s.data)

/-- `re.sub(r"[^a-zA-Z\s]", " ", s)`: non-letter, non-whitespace
characters become spaces. -/
def mapNonAlphaToSpace (s : String) : String :=
  String.mk (s.data.map (fun c => if c.isAlpha || pyIsSpace c then c else ' '))

/-- `re.sub(r"[^a-zA-Z\s]", "", s)`: delete non-letter, non-whitespace
characters. -/
def removeNonAlphaWs (s : String) : String :=
  String.mk (s.data.filter (fun c => c.isAlpha || pyIsSpace c))

/-- `re.sub(r"\d+", "", s)`: delete all digits. -/
def removeDigits (s : String) : String :=
  String.mk (s.data.filter (fun c => !c.isDigit))

/-- `re.sub(r"\D", "", s)`: keep only digits. -/
def keepDigits (s : String) : String :=
  String.mk (s.data.filter (fun c => c.isDigit))

/-- Python `str.lower()` (ASCII). -/
def pyLower (s : String) : String :=
  String.mk (s.data.map Char.toLower)

/-- Does `needle` occur as a prefix of `hay`? -/
def listStarts : List Char → List Char → Bool
  | [], _ => true
  | _ :: _, [] => false
  | a :: as, b :: bs => a = b && listStarts as bs

/-- Does `needle` occur as a contiguous segment of `hay`? -/
def listInfix (needle : List Char) : List Char → Bool
  | [] => listStarts needle []
  | b :: bs => listStarts needle (b :: bs) || listInfix needle bs

/-- Python `in` on strings: contiguous substring test. -/
def pyIn (needle hay : String) : Bool :=
  listInfix needle.data hay.data

/-- Case-insensitive literal match of `kw` at the start of `l`. -/
def lowerStartsWith (l : List Char) (kw : String) : Bool :=
  (l.take kw.length).map Char.toLower == kw.data

/-- Python truthiness-aware `x or d` for an optional string. -/
def pyOr (v : Option String) (d : String) : String :=
  match v with
  | some s => if s = "" then d else s
  | none => d

/-- Python `str.capitalize()`: first character uppercased, rest lowercased. -/
def pyCapitalize (s : String) : String :=
  match s.data with
  | [] => ""
  | c :: r => String.mk (c.toUpper :: r.map Char.toLower)

/-- Helper of `pyTitle`: `b` records whether the previous character was
cased (a letter, at ASCII level). -/
def pyTitleAux (b : Bool) : List Char → List Char
  | [] => []
  | c :: r =>
    if c.isAlpha then
      (if b then c.toLower else c.toUpper) :: pyTitleAux true r
    else c :: pyTitleAux false r

/-- Python `str.title()` (ASCII). -/
def pyTitle (s : String) : String :=
  String.mk (pyTitleAux false s.data)

/-- Helper of `pyIstitle`: `b` records whether the previous character was
cased. Uppercase may only follow uncased, lowercase only cased. -/
def pyIstitleAux (b : Bool) : List Char → Bool
  | [] => true
  | c :: r =>
    if c.isUpper then (!b) && pyIstitleAux true r
    else if c.isLower then b && pyIstitleAux true r
    else pyIstitleAux false r

/-- Python `str.istitle()` (ASCII): titlecased and containing a cased char. -/
def pyIstitle (s : String) : Bool :=
  s.data.any Char.isAlpha && pyIstitleAux false s.data

/-- Python `str.isupper()` (ASCII): no lowercase and at least one cased. -/
def pyIsupper (s : String) : Bool :=
  s.data.any Char.isAlpha && s.data.all (fun c => !c.isLower)

/-! ## Phone extraction (`extract_phone`, `normalize_phone`) -/

/-- Character class `[0-9\s\-\(\)]` of the labelled phone pattern. -/
def phoneClass (c : Char) : Bool :=
  c.isDigit || pyIsSpace c || c = '-' || c = '(' || c = ')'

/-- The keyword alternation `Mobile|Phone|Contact|Tel|Call`, in pattern
order. -/
def phoneKeywords : List String :=
  ["mobile", "phone", "contact", "tel", "call"]

/-- Continuation of the labelled phone pattern after a matched keyword:
`\s*[:\-]?\s*([+]?[0-9\s\-\(\)]{10,15})` on the remaining suffix `l`,
with the backtracking order of the Python regex engine (outer greedy
quantifiers vary slowest, `?` tries the one-character option first).
Returns the text of capture group 1. -/
def phoneAfterKeyword (l : List Char) : Option String :=
  (countdownTo0 (runLen pyIsSpace l)).findSome? (fun l1 =>
    let m1 := l.drop l1
    let sepOpts : List Nat :=
      match m1 with
      | c :: _ => if c = ':' || c = '-' then [1, 0] else [0]
      | [] => [0]
    sepOpts.findSome? (fun sep =>
      let m2 := m1.drop sep
      (countdownTo0 (runLen pyIsSpace m2)).findSome? (fun l2 =>
        let m3 := m2.drop l2
        let plusOpts : List Nat :=
          match m3 with
          | c :: _ => if c = '+' then [1, 0] else [0]
          | [] => [0]
        plusOpts.findSome? (fun plus =>
          let m4 := m3.drop plus
          let r := runLen phoneClass m4
          if 10 ≤ r then
            some (String.mk (m3.take (plus + min r 15)))
          else none))))

/-- Leftmost search of
`(?:Mobile|Phone|Contact|Tel|Call)\s*[:\-]?\s*([+]?[0-9\s\-\(\)]{10,15})`
(case-insensitive), scanning start positions left to right and keyword
alternatives in pattern order.  Returns group 1 of the first match. -/
def labeledPhoneSearch : List Char → Option String
  | [] => none
  | c :: r =>
    match phoneKeywords.findSome? (fun kw =>
      if lowerStartsWith (c :: r) kw then
        phoneAfterKeyword ((c :: r).drop kw.length)
      else none) with
    | some g => some g
    | none => labeledPhoneSearch r

/-- `re.sub(r"[^\d+]", " ", text)`: keep digits and `+`, blank the rest. -/
def phoneCleanText (s : String) : String :=
  String.mk (s.data.map (fun c => if c.isDigit || c = '+' then c else ' '))

/-- Leftmost match of `\+?\d{10,13}` (the first element of
`re.findall(r"\+?\d{10,13}", ...)`). -/
def fallbackPhoneSearch : List Char → Option String
  | [] => none
  | c :: r =>
    if c = '+' then
      let d := runLen Char.isDigit r
      if 10 ≤ d then some (String.mk ('+' :: r.take (min d 13)))
      else fallbackPhoneSearch r
    else if c.isDigit then
      let d := runLen Char.isDigit (c :: r)
      if 10 ≤ d then some (String.mk ((c :: r).take (min d 13)))
      else fallbackPhoneSearch r
    else fallbackPhoneSearch r

/-- The `if len(digits) > 10: digits = digits[-10:]` step of
`normalize_phone`. -/
def last10 (l : List Char) : List Char :=
  if 10 < l.length then l.drop (l.length - 10) else l

/-- `normalize_phone` (clean_extractor.py:155-160): strip non-digits, keep
the last 10 digits when longer, accept exactly-10-digit strings whose first
digit is 6, 7, 8 or 9. -/
def normalize_phone (phone_str : String) : Option String :=
  if phone_str = "" then none
  else
    match last10 (keepDigits phone_str).data with
    | c :: t =>
      if (c :: t).length = 10 && (c = '6' || c = '7' || c = '8' || c = '9') then
        some (String.mk (c :: t))
      else none
    | [] => none

/-- The first phone candidate `extract_phone` examines: group 1 of the
labelled pattern if it matches anywhere, else the first `\+?\d{10,13}` run
of the cleaned text. -/
def firstPhoneCandidate (text : String) : Option String :=
  match labeledPhoneSearch text.data with
  | some g => some g
  | none => fallbackPhoneSearch (phoneCleanText text).data

/-- `extract_phone` (clean_extractor.py:141-153): normalize the labelled
match if present, else normalize the first fallback candidate; the result of
that single normalization is returned as-is. -/
def extract_phone (text : String) : Option String :=
  match labeledPhoneSearch text.data with
  | some g => normalize_phone g
  | none =>
    match fallbackPhoneSearch (phoneCleanText text).data with
    | some c => normalize_phone c
    | none => none

/-! ## Email extraction (`extract_email`) -/

/-- Local-part class `[a-zA-Z0-9._%+-]`. -/
def emailLocalClass (c : Char) : Bool :=
  c.isAlphanum || c = '.' || c = '_' || c = '%' || c = '+' || c = '-'

/-- Domain class `[a-zA-Z0-9.-]`. -/
def emailDomainClass (c : Char) : Bool :=
  c.isAlphanum || c = '.' || c = '-'

/-- After the local part and `@` have been consumed, match
`[a-zA-Z0-9.-]+\.[a-zA-Z]{2,}` on `l` (greedy with backtracking: the
domain run gives back characters from the right until a dot with at least
two following letters is found).  Returns the number of characters of `l`
consumed. -/
def emailDomainMatch (l : List Char) : Option Nat :=
  (countdownTo1 (runLen emailDomainClass l)).findSome? (fun k =>
    match l.drop k with
    | '.' :: rest =>
      let t := runLen Char.isAlpha rest
      if 2 ≤ t then some (k + 1 + t) else none
    | _ => none)

/-- Leftmost search of `[a-zA-Z0-9._%+-]+@[a-zA-Z0-9.-]+\.[a-zA-Z]{2,}`.
Because `@` is not in the local class, only the maximal local run can
precede the `@`. -/
def emailSearch : List Char → Option String
  | [] => none
  | c :: r =>
    (if emailLocalClass c then
      let k := runLen emailLocalClass (c :: r)
      match (c :: r).drop k with
      | '@' :: rest =>
        match emailDomainMatch rest with
        | some n => some (String.mk ((c :: r).take (k + 1 + n)))
        | none => none
      | _ => none
    else none).orElse (fun _ => emailSearch r)

/-- `extract_email` (clean_extractor.py:137-139). -/
def extract_email (text : String) : Option String :=
  emailSearch text.data

/-! ## Gender extraction (`extract_gender`) -/

/-- Leftmost search of `\b(?:W)\b` for a literal word `w` (lowercase),
case-insensitively.  `prevWord` records whether the previous character is a
word character (for the left boundary). -/
def wordSearchAux (w : String) (prevWord : Bool) : List Char → Bool
  | [] => false
  | c :: r =>
    (if !prevWord && lowerStartsWith (c :: r) w then
      match (c :: r).drop w.length with
      | [] => true
      | d :: _ => !isWordChar d
    else false) || wordSearchAux w (isWordChar c) r

/-- Case-insensitive word-boundary search used by `extract_gender`. -/
def wordSearch (w : String) (s : String) : Bool :=
  wordSearchAux w false s.data

/-- `extract_gender` (clean_extractor.py:192-195): `Male` checked first. -/
def extract_gender (text : String) : String :=
  if wordSearch "male" text then "Male"
  else if wordSearch "female" text then "Female"
  else "Not Specified"

/-! ## Date-of-birth extraction (`extract_dob`) -/

/-- Character class `[. slash -]` (dot, slash or hyphen) separating numeric date parts. -/
def dateSep (c : Char) : Bool :=
  c = '.' || c = '/' || c = '-'

/-- Character class `[.,\s-]` between month name and year. -/
def dobPunct (c : Char) : Bool :=
  c = '.' || c = ',' || pyIsSpace c || c = '-'

/-- Exactly `n` more characters, all digits, at the head of `l`. -/
def digitsAt (l : List Char) (n : Nat) : Bool :=
  (l.take n).length = n && (l.take n).all (fun c => c.isDigit)

/-- Is the position after the first `n` characters of `l` a `\b` boundary,
given that the character before it is a word character? -/
def wordBoundaryAfter (l : List Char) (n : Nat) : Bool :=
  match l.drop n with
  | [] => true
  | d :: _ => !isWordChar d

/-- Match `\d{1,2} SEP \d{1,2} SEP \d{4}` (SEP the dot-slash-hyphen class) at the head of `l`, greedy day and
month fields backtracking from two digits to one; when `bnd` is set a `\b`
boundary is required after the year (the general, unlabelled pattern).
Returns the number of characters matched. -/
def numDateMatch (bnd : Bool) (l : List Char) : Option Nat :=
  [2, 1].findSome? (fun n1 =>
    if digitsAt l n1 then
      match l.drop n1 with
      | s1 :: r1 =>
        if dateSep s1 then
          [2, 1].findSome? (fun n2 =>
            if digitsAt r1 n2 then
              match r1.drop n2 with
              | s2 :: r2 =>
                if dateSep s2 && digitsAt r2 4 && (!bnd || wordBoundaryAfter r2 4) then
                  some (n1 + 1 + n2 + 1 + 4)
                else none
              | [] => none
            else none)
        else none
      | [] => none
    else none)

/-- Match `\d{1,2}\s+[A-Za-z]{3,10}[.,\s-]*\d{4}` at the head of `l`
(greedy quantifiers backtracking longest-first); `bnd` adds the trailing
`\b` of the general pattern.  Returns the number of characters matched. -/
def monthDateMatch (bnd : Bool) (l : List Char) : Option Nat :=
  [2, 1].findSome? (fun n1 =>
    if digitsAt l n1 then
      let r1 := l.drop n1
      (countdownTo1 (runLen pyIsSpace r1)).findSome? (fun w =>
        let r2 := r1.drop w
        (countdownTo1 (min (runLen Char.isAlpha r2) 10)).findSome? (fun a =>
          if 3 ≤ a then
            let r3 := r2.drop a
            (countdownTo0 (runLen dobPunct r3)).findSome? (fun p =>
              if digitsAt (r3.drop p) 4 && (!bnd || wordBoundaryAfter (r3.drop p) 4) then
                some (n1 + w + a + p + 4)
              else none)
          else none))
    else none)

/-- The keyword alternation `DOB|Date of Birth|Birth Date|Born`, in pattern
order. -/
def dobKeywords : List String :=
  ["dob", "date of birth", "birth date", "born"]

/-- Character class `[\s:\-]` after a DOB keyword. -/
def dobSepClass (c : Char) : Bool :=
  pyIsSpace c || c = ':' || c = '-'

/-- Leftmost search of `(?:DOB|Date of Birth|Birth Date|Born)[\s:\-]+(G)`
case-insensitively, where the group `G` is matched by `gm`.  Returns the
text of capture group 1 of the first match. -/
def labeledDobSearch (gm : List Char → Option Nat) : List Char → Option String
  | [] => none
  | c :: r =>
    match dobKeywords.findSome? (fun kw =>
      if lowerStartsWith (c :: r) kw then
        let l := (c :: r).drop kw.length
        (countdownTo1 (runLen dobSepClass l)).findSome? (fun k =>
          let m := l.drop k
          (gm m).map (fun n => String.mk (m.take n)))
      else none) with
    | some g => some g
    | none => labeledDobSearch gm r

/-- Leftmost search of `\bG` where `gm` matches the group `G` (which itself
enforces its trailing `\b`); `prevWord` tracks whether the previous
character is a word character. -/
def genDobSearchAux (gm : List Char → Option Nat) (prevWord : Bool) :
    List Char → Option String
  | [] => none
  | c :: r =>
    match (if !prevWord then (gm (c :: r)).map (fun n => String.mk ((c :: r).take n))
           else none) with
    | some g => some g
    | none => genDobSearchAux gm (isWordChar c) r

/-- `extract_dob` (clean_extractor.py:162-178): the two labelled patterns in
order, then the two general word-bounded patterns in order; the first match
anywhere wins. -/
def extract_dob (text : String) : Option String :=
  match labeledDobSearch (numDateMatch false) text.data with
  | some g => some g
  | none =>
  match labeledDobSearch (monthDateMatch false) text.data with
  | some g => some g
  | none =>
  match genDobSearchAux (numDateMatch true) false text.data with
  | some g => some g
  | none => genDobSearchAux (monthDateMatch true) false text.data

/-! ## Date normalization (`normalize_dob`): a faithful `strptime` for the
six templates of the source, following CPython `_strptime`: each directive
becomes the regex fragment CPython builds for it (`%d` is
`3[01]|[12]\d|0[1-9]|[1-9]| [1-9]`, `%m` is `1[0-2]|0[1-9]|[1-9]`, `%Y` is
`\d\d\d\d`, `%B`/`%b` are the month-name alternations sorted longest
first), whitespace in the format matches `\s+`, matching is anchored at the
start and case-insensitive, the whole input must be consumed, and the
parsed fields must form a constructible `datetime.date`. -/

/-- Numeric value of a digit character. -/
def dval (c : Char) : Nat :=
  c.toNat - 48

/-- Parsed fields of a `strptime` match. -/
structure DobAcc where
  dd : Option Nat
  mm : Option Nat
  yy : Option Nat
deriving Repr, DecidableEq

/-- Candidate matches of `%d` = `3[01]|[12]\d|0[1-9]|[1-9]| [1-9]`, in
alternation order: pairs (characters consumed, day value). -/
def dCands (l : List Char) : List (Nat × Nat) :=
  (match l with
   | c1 :: c2 :: _ =>
     (if c1 = '3' && (c2 = '0' || c2 = '1') then [(2, 30 + dval c2)] else []) ++
     (if (c1 = '1' || c1 = '2') && c2.isDigit then [(2, 10 * dval c1 + dval c2)] else []) ++
     (if c1 = '0' && (c2.isDigit && c2 ≠ '0') then [(2, dval c2)] else [])
   | _ => []) ++
  (match l with
   | c1 :: _ => if c1.isDigit && c1 ≠ '0' then [(1, dval c1)] else []
   | [] => []) ++
  (match l with
   | c1 :: c2 :: _ =>
     if c1 = ' ' && (c2.isDigit && c2 ≠ '0') then [(2, dval c2)] else []
   | _ => [])

/-- Candidate matches of `%m` = `1[0-2]|0[1-9]|[1-9]`. -/
def mCands (l : List Char) : List (Nat × Nat) :=
  (match l with
   | c1 :: c2 :: _ =>
     (if c1 = '1' && (c2 = '0' || c2 = '1' || c2 = '2') then [(2, 10 + dval c2)] else []) ++
     (if c1 = '0' && (c2.isDigit && c2 ≠ '0') then [(2, dval c2)] else [])
   | _ => []) ++
  (match l with
   | c1 :: _ => if c1.isDigit && c1 ≠ '0' then [(1, dval c1)] else []
   | [] => [])

/-- Candidate match of `%Y` = `\d\d\d\d`. -/
def yCands (l : List Char) : List (Nat × Nat) :=
  match l with
  | c1 :: c2 :: c3 :: c4 :: _ =>
    if c1.isDigit && c2.isDigit && c3.isDigit && c4.isDigit then
      [(4, 1000 * dval c1 + 100 * dval c2 + 10 * dval c3 + dval c4)]
    else []
  | _ => []

/-- Full month names with their numbers, in CPython's alternation order
(stable sort of January..December by decreasing length). -/
def fullMonths : List (String × Nat) :=
  [("september", 9), ("february", 2), ("november", 11), ("december", 12),
   ("january", 1), ("october", 10), ("august", 8), ("march", 3),
   ("april", 4), ("june", 6), ("july", 7), ("may", 5)]

/-- Abbreviated month names in CPython's alternation order (all the same
length, so original calendar order). -/
def abbrMonths : List (String × Nat) :=
  [("jan", 1), ("feb", 2), ("mar", 3), ("apr", 4), ("may", 5), ("jun", 6),
   ("jul", 7), ("aug", 8), ("sep", 9), ("oct", 10), ("nov", 11), ("dec", 12)]

/-- Candidate matches of `%B`/`%b`: case-insensitive month-name prefixes. -/
def monthCands (tbl : List (String × Nat)) (l : List Char) : List (Nat × Nat) :=
  tbl.filterMap (fun p =>
    if lowerStartsWith l p.1 then some (p.1.length, p.2) else none)

/-- Dispatch a `strptime` directive to its candidate list. -/
def dirCands (dir : Char) (l : List Char) : List (Nat × Nat) :=
  if dir = 'd' then dCands l
  else if dir = 'm' then mCands l
  else if dir = 'Y' then yCands l
  else if dir = 'B' then monthCands fullMonths l
  else if dir = 'b' then monthCands abbrMonths l
  else []

/-- Record a parsed directive value. -/
def updAcc (dir : Char) (v : Nat) (acc : DobAcc) : DobAcc :=
  if dir = 'd' then { acc with dd := some v }
  else if dir = 'm' || dir = 'B' || dir = 'b' then { acc with mm := some v }
  else { acc with yy := some v }

/-- Backtracking matcher of a format against an input: directive
alternatives are tried in alternation order, whitespace in the format
matches `\s+` greedily, other format characters are literals, and the whole
input must be consumed. -/
def matchFmt : List Char → List Char → DobAcc → Option DobAcc
  | [], input, acc => if input = [] then some acc else none
  | '%' :: dir :: rest, input, acc =>
    (dirCands dir input).findSome? (fun p =>
      matchFmt rest (input.drop p.1) (updAcc dir p.2 acc))
  | c :: rest, input, acc =>
    if pyIsSpace c then
      (countdownTo1 (runLen pyIsSpace input)).findSome? (fun k =>
        matchFmt rest (input.drop k) acc)
    else
      match input with
      | i :: is2 => if i = c then matchFmt rest is2 acc else none
      | [] => none

/-- Gregorian leap year, as `datetime` implements it. -/
def isLeapYear (y : Nat) : Bool :=
  y % 4 = 0 && (y % 100 ≠ 0 || y % 400 = 0)

/-- Length of a month, as `datetime` implements it. -/
def daysInMonth (y m : Nat) : Nat :=
  if m = 2 then (if isLeapYear y then 29 else 28)
  else if m = 4 || m = 6 || m = 9 || m = 11 then 30
  else 31

/-- Constructibility of `datetime.date(y, m, d)` (MINYEAR 1, MAXYEAR 9999). -/
def isValidDate (y m d : Nat) : Bool :=
  1 ≤ y && y ≤ 9999 && 1 ≤ m && m ≤ 12 && 1 ≤ d && d ≤ daysInMonth y m

/-- `datetime.strptime(s, fmt).date()` for the formats of the source:
match the format, fill CPython's defaults for missing fields, and validate
as a calendar date.  Returns (year, month, day). -/
def strptimeDate (fmt s : String) : Option (Nat × Nat × Nat) :=
  match matchFmt fmt.data s.data ⟨none, none, none⟩ with
  | none => none
  | some acc =>
    if isValidDate (acc.yy.getD 1900) (acc.mm.getD 1) (acc.dd.getD 1) then
      some (acc.yy.getD 1900, acc.mm.getD 1, acc.dd.getD 1)
    else none

/-- The ordered template list of `normalize_dob`. -/
def dobFormats : List String :=
  ["%d %B %Y", "%d %b %Y", "%d/%m/%Y", "%d-%m-%Y", "%Y-%m-%d", "%d.%m.%Y"]

/-- Two-digit zero-padded rendering. -/
def pad2 (n : Nat) : List Char :=
  [Nat.digitChar (n / 10 % 10), Nat.digitChar (n % 10)]

/-- Four-digit zero-padded rendering. -/
def pad4 (n : Nat) : List Char :=
  [Nat.digitChar (n / 1000 % 10), Nat.digitChar (n / 100 % 10),
   Nat.digitChar (n / 10 % 10), Nat.digitChar (n % 10)]

/-- `date(y, m, d).isoformat()`. -/
def isoformat (y m d : Nat) : String :=
  String.mk (pad4 y ++ '-' :: pad2 m ++ '-' :: pad2 d)

/-- The cleaning step of `normalize_dob`: `.`/`,` become spaces, whitespace
runs collapse to one space, ends stripped. -/
def cleanDob (s : String) : String :=
  pyStrip (collapseWs (String.mk (s.data.map (fun c =>
    if c = '.' || c = ',' then ' ' else c))))

/-- `normalize_dob` (clean_extractor.py:180-190): clean, then try the six
templates in order, emitting the first successful parse as an ISO date. -/
def normalize_dob (dob_raw : Option String) : Option String :=
  match dob_raw with
  | none => none
  | some s =>
    if s = "" then none
    else
      match dobFormats.findSome? (fun fmt => strptimeDate fmt (cleanDob s)) with
      | some (y, m, d) => some (isoformat y m d)
      | none => none

/-! ## Name resolution (`extract_name`) -/

/-- The generic stopword set of `extract_name` (clean_extractor.py:203-230),
transcribed verbatim. -/
def generic_stops : List String :=
  ["resume", "curriculum", "vitae", "cv", "bio", "profile", "summary",
   "education", "work", "experience", "skills", "projects", "contact",
   "mobile", "phone", "email", "address", "linkedin", "github", "link",
   "technologies", "technical", "personal", "details", "declaration",
   "objective", "career", "professional", "academic", "history",
   "reference", "references", "referee",
   "designer", "developer", "engineer", "manager", "consultant", "analyst",
   "head", "lead", "executive", "assistant", "associate", "intern",
   "journalist", "counselor", "plant", "graphic", "teacher", "clerk", "officer",
   "university", "college", "school", "academy", "institute", "organization",
   "inc", "ltd", "corp", "group", "services", "solutions", "limited",
   "name", "candidate", "machine", "learning", "deep", "artificial",
   "intelligence", "data",
   "ca", "cpa", "bachelor", "master", "phd", "student", "graduate",
   "ma", "ba", "bs", "ms", "bsc", "msc", "bba", "mba",
   "english", "spanish", "french", "german", "language",
   "mother", "father", "parent", "brother", "sister", "wife", "husband",
   "dog", "cat", "pet", "breed", "terrier"]

/-- The structural/address marker set (clean_extractor.py:232-236). -/
def structural_markers : List String :=
  ["street", "road", "lane", "apt", "apartment", "house", "flat",
   "district", "state", "pincode", "zip", "nagar", "colony", "sector",
   "pradesh", "india", "complex", "building", "floor", "marg"]

/-- Regex `[\d,@/()]`: the forbidden-character class of the validator. -/
def hasForbiddenChar (s : String) : Bool :=
  s.data.any (fun c => c.isDigit || c = ',' || c = '@' || c = '/' || c = '(' || c = ')')

/-- `is_valid_candidate` (clean_extractor.py:238-259).  The context line is
passed as a string, with `""` playing the role of Python's falsy
`None`/empty default (the source only tests truthiness). -/
def is_valid_candidate (candidate_str : String) (source_line_context : String) : Bool :=
  if candidate_str = "" then false
  else if hasForbiddenChar candidate_str then false
  else
    let words := pySplit candidate_str
    if words.length < 2 || 4 < words.length then false
    else if words.any (fun w => generic_stops.contains (pyLower w)) then false
    else if words.any (fun w => structural_markers.contains (pyLower w)) then false
    else if source_line_context ≠ "" then
      let cws := pySplit (mapNonAlphaToSpace source_line_context)
      if cws.any (fun w => generic_stops.contains (pyLower w)) then false
      else if cws.any (fun w => structural_markers.contains (pyLower w)) then false
      else true
    else true

/-- The keyword alternation `Name|Candidate Name|Full Name`, in pattern
order. -/
def labelKeywords : List String :=
  ["name", "candidate name", "full name"]

/-- Character class `[A-Za-z\s\.]` of the labelled-name capture group. -/
def labelClass (c : Char) : Bool :=
  c.isAlpha || pyIsSpace c || c = '.'

/-- Continuation of the labelled-name pattern after a matched keyword:
`\s*[:\-]\s*([A-Za-z\s\.]+)`, with regex backtracking order.  Returns
capture group 1. -/
def labelAfterKeyword (l : List Char) : Option String :=
  (countdownTo0 (runLen pyIsSpace l)).findSome? (fun l1 =>
    match l.drop l1 with
    | c :: r =>
      if c = ':' || c = '-' then
        (countdownTo0 (runLen pyIsSpace r)).findSome? (fun l2 =>
          let m := r.drop l2
          let cr := runLen labelClass m
          if 1 ≤ cr then some (String.mk (m.take cr)) else none)
      else none
    | [] => none)

/-- Leftmost search of
`(?:Name|Candidate Name|Full Name)\s*[:\-]\s*([A-Za-z\s\.]+)`,
case-insensitive.  Returns group 1 of the first match. -/
def labelGroupSearch : List Char → Option String
  | [] => none
  | c :: r =>
    match labelKeywords.findSome? (fun kw =>
      if lowerStartsWith (c :: r) kw then labelAfterKeyword ((c :: r).drop kw.length)
      else none) with
    | some g => some g
    | none => labelGroupSearch r

/-- The labelled-name pattern applied to one line. -/
def labelGroup (line : String) : Option String :=
  labelGroupSearch line.data

/-- Strategy 1 on a single line (clean_extractor.py:261-269): match the
label pattern, strip digits and whitespace from the captured group, and
validate without a context line. -/
def strategy1Line (line : String) : Option String :=
  match labelGroup line with
  | some g =>
    let clean_label_name := pyStrip (removeDigits g)
    if is_valid_candidate clean_label_name "" then some clean_label_name else none
  | none => none

/-- Strategy 1: first header line (of the first 20) with a valid labelled
name. -/
def strategy1 (lines : List String) : Option String :=
  (lines.take 20).findSome? strategy1Line

/-- The candidate one PERSON entity contributes in strategy 2
(clean_extractor.py:274-287): locate the first header line containing the
stripped entity text (else `""`), prefer the letters-only collapsed full
line, else the cleaned entity text, both validated against the source
line as context. -/
def entCandidate (lines : List String) (ent : String) : Option String :=
  let entity_text := pyStrip ent
  let source_line := ((lines.take 20).find? (fun l => pyIn entity_text l)).getD ""
  let full_line_clean := pyStrip (collapseWs (mapNonAlphaToSpace source_line))
  if is_valid_candidate full_line_clean source_line then some full_line_clean
  else if is_valid_candidate (pyStrip (removeNonAlphaWs entity_text)) source_line then
    some entity_text
  else none

/-- Strategy 2 (clean_extractor.py:271-290): the candidates are collected
in entity order and the first one is returned, which is the first entity
producing a candidate. -/
def strategy2 (ents : List String) (lines : List String) : Option String :=
  ents.findSome? (entCandidate lines)

/-- Strategy 3 on a single line (clean_extractor.py:293-298): letters-only
text of the line, validated with the line as context, with the additional
requirements that the raw line has no digit/comma/`@`/slash and the
cleaned text is title- or upper-case; returned title-cased. -/
def strategy3Line (line : String) : Option String :=
  let clean_text := pyStrip (removeNonAlphaWs line)
  if is_valid_candidate clean_text line then
    if !(line.data.any (fun c => c.isDigit || c = ',' || c = '@' || c = '/')) then
      if pyIstitle clean_text || pyIsupper clean_text then some (pyTitle clean_text)
      else none
    else none
  else none

/-- Strategy 3: scan the first 10 header lines. -/
def strategy3 (lines : List String) : Option String :=
  (lines.take 10).findSome? strategy3Line

/-- `re.sub(r"[._]+", " ", s)`: dot/underscore runs become single spaces. -/
def collapseDotUnderscoreAux (b : Bool) : List Char → List Char
  | [] => []
  | c :: r =>
    if c = '.' || c = '_' then
      if b then collapseDotUnderscoreAux true r
      else ' ' :: collapseDotUnderscoreAux true r
    else c :: collapseDotUnderscoreAux false r

/-- `re.sub(r"[._]+", " ", s)` as a string operation. -/
def collapseDotUnderscore (s : String) : String :=
  String.mk (collapseDotUnderscoreAux false s.data)

/-- Strategy 4 (clean_extractor.py:300-308): derive a candidate from the
email local part; `""` models a falsy email exactly as the source's
truthiness test does. -/
def strategy4 (email : Option String) : Option String :=
  match email with
  | none => none
  | some e =>
    if e = "" then none
    else
      let l0 := String.mk (e.data.takeWhile (fun c => c ≠ '@'))
      let l1 := pyStrip (removeDigits (collapseDotUnderscore l0))
      if l1 = "" then none
      else
        let candidate := String.intercalate " " ((pySplit l1).map pyCapitalize)
        if is_valid_candidate candidate "" then some candidate else none

/-- The non-blank stripped lines of the text (clean_extractor.py:198). -/
def nameLines (text : String) : List String :=
  ((pySplitLines text).map pyStrip).filter (fun l => l ≠ "")

/-- The cascade of the three text-driven strategies, first success wins. -/
def strategies123 (ents : List String) (lines : List String) : Option String :=
  match strategy1 lines with
  | some n => some n
  | none =>
    match strategy2 ents lines with
    | some n => some n
    | none => strategy3 lines

/-- `extract_name` (clean_extractor.py:197-310).  `ents` stands for the
texts of the PERSON entities the spaCy model reports on the header text
(an external model, hence a parameter); `email` is the optional
already-extracted email for strategy 4. -/
def extract_name (ents : List String) (text : String) (email : Option String) :
    Option String :=
  match strategies123 ents (nameLines text) with
  | some n => some n
  | none => strategy4 email

/-! ## Orchestration (`extract_entities`, `process_resume_file`,
`read_any_file`) -/

/-- The output record (spec section 3, clean_extractor.py:315-321). -/
structure EntityRecord where
  name : Option String
  email : Option String
  mobile : Option String
  dob : String
  gender : String
deriving Repr, DecidableEq

/-- `extract_entities` (clean_extractor.py:312-321): note that
`extract_name` is invoked with the text only, so its `email` parameter
stays `none`. -/
def extract_entities (ents : List String) (text : String) : EntityRecord :=
  { name := extract_name ents text none
    email := extract_email text
    mobile := extract_phone text
    dob := pyOr (normalize_dob (extract_dob text)) "NA"
    gender := extract_gender text }

/-- `os.path.splitext(path)[1]` on a POSIX path: the extension starts at
the last dot of the final component, unless that component's leading
characters up to the dot are all dots. -/
def splitextExt (path : String) : String :=
  let l := path.data
  let sepIdx : Option Nat :=
    (l.reverse.findIdx? (fun c => c = '/')).map (fun i => l.length - 1 - i)
  let dotIdx : Option Nat :=
    (l.reverse.findIdx? (fun c => c = '.')).map (fun i => l.length - 1 - i)
  match dotIdx with
  | none => ""
  | some d =>
    let start := match sepIdx with
      | some i => i + 1
      | none => 0
    if start ≤ d then
      if ((l.drop start).take (d - start)).all (fun c => c = '.') then ""
      else String.mk (l.drop d)
    else ""

/-- `read_any_file` (clean_extractor.py:114-131).  The four I/O readers
(`read_pdf`, `read_docx_xml`, `read_docx_fallback`, plain-text read) are
parameters: each models the best-effort text its strategy extracts from
the file at the given path. -/
def read_any_file (fpdf fxml ffb ftxt : String → String) (path : String) : String :=
  let ext := pyLower (splitextExt path)
  if ext = ".pdf" then fpdf path
  else if ext = ".docx" then
    let text := fxml path
    if text.length < 10 then ffb path else text
  else ftxt path

/-- Result of `process_resume_file`: an error object or an entity record. -/
inductive ProcResult where
  | error (msg : String)
  | ok (record : EntityRecord)
deriving Repr, DecidableEq

/-- `process_resume_file` (clean_extractor.py:326-334): read, guard on
empty or short (trimmed length under 30) text, else extract. -/
def process_resume_file (ents : List String) (fpdf fxml ffb ftxt : String → String)
    (path : String) : ProcResult :=
  let text := read_any_file fpdf fxml ffb ftxt path
  if text = "" || (pyStrip text).length < 30 then ProcResult.error "No readable text found"
  else ProcResult.ok (extract_entities ents text)

/-! ## General helper lemmas -/

theorem findSome?_first_some {α β : Type} (a : α) (l : List α) (f : α → Option β)
    (b : β) (h : f a = some b) : (a :: l).findSome? f = some b := by
  simp [List.findSome?_cons, h]

theorem mem_of_keepDigits (p : String) : ∀ c ∈ (keepDigits p).data, c.isDigit = true := by
  intro c hc
  unfold keepDigits at hc
  simp only [List.mem_filter] at hc
  exact hc.2

theorem normalize_phone_spec (p s : String) (h : normalize_phone p = some s) :
    s.data.length = 10 ∧ (∀ c ∈ s.data, c.isDigit = true) ∧
    ∃ c cs, s.data = c :: cs ∧ (c = '6' ∨ c = '7' ∨ c = '8' ∨ c = '9') := by
  unfold normalize_phone at h
  split at h
  · exact absurd h (by simp)
  · have hdig : ∀ c ∈ last10 (keepDigits p).data, c.isDigit = true := by
      intro c hc
      apply mem_of_keepDigits p c
      unfold last10 at hc
      split at hc
      · exact List.mem_of_mem_drop hc
      · exact hc
    cases hm : last10 (keepDigits p).data with
    | nil => rw [hm] at h; exact absurd h (by simp)
    | cons c t =>
      rw [hm] at h
      split at h
      · rename_i c2 t2 hceq
        injection hceq with hc2 ht2
        subst hc2
        subst ht2
        split at h
        · rename_i hcond
          simp only [Bool.and_eq_true, Bool.or_eq_true, decide_eq_true_eq] at hcond
          have hs : s = String.mk (c :: t) := by
            injection h with h'
            exact h'.symm
          subst hs
          refine ⟨hcond.1, ?_, c, t, rfl, by tauto⟩
          intro x hx
          exact hdig x (hm ▸ hx)
        · exact absurd h (by simp)
      · rename_i hceq
        exact absurd hceq (by simp)

theorem extract_phone_eq_candidate (text : String) :
    extract_phone text =
      match firstPhoneCandidate text with
      | some c => normalize_phone c
      | none => none := by
  unfold extract_phone firstPhoneCandidate
  cases h : labeledPhoneSearch text.data
  · cases hf : fallbackPhoneSearch (phoneCleanText text).data <;> simp
  · simp

/-- C1: for every input string, `extract_phone` returns either `none` or a
string of exactly 10 digit characters whose first digit is 6, 7, 8 or 9,
and the `mobile` field of `extract_entities` is exactly that value. -/
theorem C1_mobile_always_valid_or_none :
    (∀ ents text, (extract_entities ents text).mobile = extract_phone text) ∧
    (∀ text s, extract_phone text = some s →
      s.data.length = 10 ∧ (∀ c ∈ s.data, c.isDigit = true) ∧
      ∃ c cs, s.data = c :: cs ∧ (c = '6' ∨ c = '7' ∨ c = '8' ∨ c = '9')) := by
  constructor
  · intro ents text; rfl
  · intro text s h
    rw [extract_phone_eq_candidate] at h
    cases hc : firstPhoneCandidate text with
    | none => rw [hc] at h; exact absurd h (by simp)
    | some cand =>
      rw [hc] at h
      exact normalize_phone_spec cand s h

theorem C1_witness :
    extract_phone "Mobile: 9876543210" = some "9876543210" ∧
    ("9876543210" : String).data.length = 10 ∧
    ("9876543210" : String).data.all Char.isDigit = true ∧
    ("9876543210" : String).data.head? = some '9' := by
  refine ⟨by decide,
    (C1_mobile_always_valid_or_none.2 "Mobile: 9876543210" "9876543210" (by decide)).1,
    by decide, by decide⟩

/-- C2 (amended): the value `extract_phone` returns is always the
normalization of the first candidate it selects (the labelled match if the
labelled pattern matches anywhere, else the first 10-13 digit run); in
particular, when that candidate normalizes to the embedded valid mobile
number, exactly those digits are returned — and a returned number never
starts with 0-5. -/
theorem C2_phone_first_candidate :
    (∀ text c, firstPhoneCandidate text = some c →
      extract_phone text = normalize_phone c) ∧
    (∀ text s, extract_phone text = some s →
      ∃ c cs, s.data = c :: cs ∧
        c ≠ '0' ∧ c ≠ '1' ∧ c ≠ '2' ∧ c ≠ '3' ∧ c ≠ '4' ∧ c ≠ '5') := by
  constructor
  · intro text c h
    rw [extract_phone_eq_candidate, h]
  · intro text s h
    rw [extract_phone_eq_candidate] at h
    cases hc : firstPhoneCandidate text with
    | none => rw [hc] at h; exact absurd h (by simp)
    | some cand =>
      rw [hc] at h
      obtain ⟨-, -, c, cs, hdata, hc6⟩ := normalize_phone_spec cand s h
      refine ⟨c, cs, hdata, ?_⟩
      rcases hc6 with h6 | h6 | h6 | h6 <;> subst h6 <;> refine ⟨by decide, by decide, by decide, by decide, by decide, by decide⟩

theorem C2_witness :
    firstPhoneCandidate "reach me on 9876543210 today" = some "9876543210" ∧
    extract_phone "reach me on 9876543210 today" = normalize_phone "9876543210" ∧
    normalize_phone "9876543210" = some "9876543210" := by
  refine ⟨by decide, ?_, by decide⟩
  exact C2_phone_first_candidate.1 "reach me on 9876543210 today" "9876543210" (by decide)

theorem C2_counterexample :
    pyIn "9876543210" "Phone: 1234567890, 9876543210" = true ∧
    ("9876543210" : String).data.all Char.isDigit = true ∧
    ("9876543210" : String).data.head? = some '9' ∧
    ("9876543210" : String).data.length = 10 ∧
    extract_phone "Phone: 1234567890, 9876543210" = none := by
  refine ⟨by decide, by decide, by decide, by decide, by decide⟩

/-! ## C4: the minimum-content guard of the orchestrator -/

/-- C4: whenever the extracted document text is empty or its trimmed length
is under 30 characters, `process_resume_file` returns exactly the error
result `"No readable text found"`, and does so independently of the entity
input to the extraction stage (no field extraction influences the result). -/
theorem C4_short_text_error :
    ∀ ents (fpdf fxml ffb ftxt : String → String) path,
      (read_any_file fpdf fxml ffb ftxt path = "" ∨
        (pyStrip (read_any_file fpdf fxml ffb ftxt path)).length < 30) →
      process_resume_file ents fpdf fxml ffb ftxt path =
        ProcResult.error "No readable text found" ∧
      ∀ ents2, process_resume_file ents2 fpdf fxml ffb ftxt path =
        ProcResult.error "No readable text found" := by
  intro ents fpdf fxml ffb ftxt path h
  have key : ∀ e2 : List String, process_resume_file e2 fpdf fxml ffb ftxt path =
      ProcResult.error "No readable text found" := by
    intro e2
    unfold process_resume_file
    rcases h with h | h <;> simp [h]
  exact ⟨key ents, key⟩

theorem C4_witness :
    process_resume_file [] (fun _ => "") (fun _ => "") (fun _ => "")
      (fun _ => "  tiny resume  ") "cv.txt" = ProcResult.error "No readable text found" :=
  (C4_short_text_error [] _ _ _ _ "cv.txt" (Or.inr (by decide))).1

/-! ## C10: the DOCX fallback policy of the document reader -/

/-- C10: for a `.docx` path, `read_any_file` returns the deep-XML result
whenever it has at least 10 characters (and then the result does not depend
on the fallback reader at all), and returns the python-docx fallback result
exactly when the deep extraction yields fewer than 10 characters. -/
theorem C10_docx_fallback_policy :
    ∀ (fpdf fxml ffb ftxt : String → String) path,
      pyLower (splitextExt path) = ".docx" →
      (10 ≤ (fxml path).length →
        read_any_file fpdf fxml ffb ftxt path = fxml path ∧
        ∀ ffb2, read_any_file fpdf fxml ffb2 ftxt path =
          read_any_file fpdf fxml ffb ftxt path) ∧
      ((fxml path).length < 10 →
        read_any_file fpdf fxml ffb ftxt path = ffb path) := by
  intro fpdf fxml ffb ftxt path hext
  constructor
  · intro hlen
    have hnot : ¬ (fxml path).length < 10 := by omega
    constructor
    · unfold read_any_file
      rw [hext]
      simp [hnot]
    · intro ffb2
      unfold read_any_file
      rw [hext]
      simp [hnot]
  · intro hlen
    unfold read_any_file
    rw [hext]
    simp [hlen]

theorem C10_witness :
    read_any_file (fun _ => "p") (fun _ => "0123456789") (fun _ => "fb")
      (fun _ => "t") "cv.docx" = "0123456789" ∧
    read_any_file (fun _ => "p") (fun _ => "short") (fun _ => "fb")
      (fun _ => "t") "cv.docx" = "fb" :=
  ⟨((C10_docx_fallback_policy _ _ _ _ "cv.docx" (by decide)).1 (by decide)).1,
   (C10_docx_fallback_policy _ _ _ _ "cv.docx" (by decide)).2 (by decide)⟩

/-! ## C3: the dob field is a parsed ISO date or the literal NA -/

theorem strptimeDate_valid (fmt s : String) (y m d : Nat)
    (h : strptimeDate fmt s = some (y, m, d)) : isValidDate y m d = true := by
  unfold strptimeDate at h
  split at h
  · exact absurd h (by simp)
  · split at h
    · rename_i hcond
      simp only [Option.some.injEq, Prod.mk.injEq] at h
      obtain ⟨h1, h2, h3⟩ := h
      rw [← h1, ← h2, ← h3]
      exact hcond
    · exact absurd h (by simp)

theorem isoformat_ne_empty (y m d : Nat) : isoformat y m d ≠ "" := by
  intro hcon
  have := congrArg String.data hcon
  simp [isoformat, pad4] at this

/-- C3: the `dob` field of the record produced by `extract_entities` is
either the literal `"NA"` or the ISO rendering of a valid calendar date
obtained by parsing the raw extracted date string with the ordered template
list; it is never any other string. -/
theorem C3_dob_iso_or_na :
    ∀ ents text,
      (extract_entities ents text).dob = "NA" ∨
      ∃ y m d raw, isValidDate y m d = true ∧ extract_dob text = some raw ∧
        dobFormats.findSome? (fun fmt => strptimeDate fmt (cleanDob raw)) =
          some (y, m, d) ∧
        (extract_entities ents text).dob = isoformat y m d := by
  intro ents text
  have hdob : (extract_entities ents text).dob =
      pyOr (normalize_dob (extract_dob text)) "NA" := rfl
  cases hr : extract_dob text with
  | none => left; rw [hdob, hr]; rfl
  | some raw =>
    rw [hdob, hr]
    have hnd : normalize_dob (some raw) =
        (if raw = "" then none
         else
           match dobFormats.findSome? (fun fmt => strptimeDate fmt (cleanDob raw)) with
           | some (y, m, d) => some (isoformat y m d)
           | none => none) := rfl
    rw [hnd]
    by_cases hraw : raw = ""
    · left; rw [if_pos hraw]; rfl
    · rw [if_neg hraw]
      cases hf : dobFormats.findSome? (fun fmt => strptimeDate fmt (cleanDob raw)) with
      | none => left; rfl
      | some t =>
        obtain ⟨y, m, d⟩ := t
        right
        have hv : isValidDate y m d = true := by
          obtain ⟨fmt, hmem, hfmt⟩ := List.exists_of_findSome?_eq_some hf
          exact strptimeDate_valid fmt (cleanDob raw) y m d hfmt
        refine ⟨y, m, d, raw, hv, rfl, hf, ?_⟩
        show (if isoformat y m d = "" then "NA" else isoformat y m d) = isoformat y m d
        rw [if_neg (isoformat_ne_empty y m d)]

/-! ## C8: the email-derived name fallback is unreachable via the
pipeline -/

/-- C8: `extract_entities` calls `extract_name` with no email, so the name
field equals the result of the three text-driven strategies alone, and is
`none` whenever they all fail — the email-derived strategy 4 can never
contribute to the record, even when an email was extracted. -/
theorem C8_email_fallback_unreachable :
    (∀ ents text, (extract_entities ents text).name =
      strategies123 ents (nameLines text)) ∧
    (∀ ents text, strategies123 ents (nameLines text) = none →
      (extract_entities ents text).name = none) := by
  constructor
  · intro ents text
    show extract_name ents text none = _
    unfold extract_name
    cases h : strategies123 ents (nameLines text) <;> rfl
  · intro ents text h
    show extract_name ents text none = none
    unfold extract_name
    rw [h]
    rfl

theorem C8_witness :
    strategies123 [] (nameLines "hi someone a@b.co ok") = none ∧
    extract_email "hi someone a@b.co ok" = some "a@b.co" ∧
    (extract_entities [] "hi someone a@b.co ok").name = none :=
  ⟨by decide, by decide,
   C8_email_fallback_unreachable.2 [] "hi someone a@b.co ok" (by decide)⟩

/-! ## C9: idempotence of normalize_dob on its own output -/

theorem digitFacts : ∀ k, k < 10 →
    (Nat.digitChar k).isDigit = true ∧ pyIsSpace (Nat.digitChar k) = false ∧
    Nat.digitChar k ≠ '-' ∧ Nat.digitChar k ≠ '/' ∧ Nat.digitChar k ≠ '.' ∧
    Nat.digitChar k ≠ ',' ∧ dval (Nat.digitChar k) = k := by decide

theorem dFinal : ∀ d0, 1 ≤ d0 → d0 < 32 →
    dCands (pad2 d0) = [(2, d0)] ∨ dCands (pad2 d0) = [(2, d0), (1, d0 / 10)] := by decide

theorem mFirst : ∀ m, 1 ≤ m → m < 13 →
    mCands (pad2 m) = [(2, m)] ∨ mCands (pad2 m) = [(2, m), (1, 1)] := by decide

theorem dCands_mem_consume : ∀ (l : List Char) (p : Nat × Nat), p ∈ dCands l →
    p.1 = 1 ∨ p.1 = 2 := by
  intro l p hp
  unfold dCands at hp
  rcases l with _ | ⟨c1, _ | ⟨c2, r⟩⟩ <;>
    simp only [List.mem_append, List.mem_singleton] at hp <;>
    try split_ifs at hp
  all_goals simp_all
  all_goals rcases hp with rfl | rfl | rfl | rfl | rfl <;> simp

theorem findSome?_all_none {α β : Type} (l : List α) (f : α → Option β)
    (h : ∀ a ∈ l, f a = none) : l.findSome? f = none := by
  induction l with
  | nil => rfl
  | cons a t ih =>
    simp only [List.findSome?_cons, h a (by simp)]
    exact ih (fun x hx => h x (by simp [hx]))

theorem runLen_cons_false {p : Char → Bool} {c : Char} (l : List Char)
    (h : p c = false) : runLen p (c :: l) = 0 := by
  simp [runLen, List.takeWhile_cons, h]

theorem matchFmt_sp_fail (fmt : List Char) (acc : DobAcc) (input : List Char)
    (h : runLen pyIsSpace input = 0) : matchFmt (' ' :: fmt) input acc = none := by
  simp [matchFmt, h, countdownTo1, (by decide : pyIsSpace ' ' = true)]

theorem matchFmt_dash_fail (fmt : List Char) (acc : DobAcc) (c : Char) (l : List Char)
    (h : c ≠ '-') : matchFmt ('-' :: fmt) (c :: l) acc = none := by
  simp [matchFmt, h, (by decide : pyIsSpace '-' = false)]

theorem matchFmt_slash_fail (fmt : List Char) (acc : DobAcc) (c : Char) (l : List Char)
    (h : c ≠ '/') : matchFmt ('/' :: fmt) (c :: l) acc = none := by
  simp [matchFmt, h, (by decide : pyIsSpace '/' = false)]

theorem matchFmt_d_arm (fmt : List Char) (acc : DobAcc) (input : List Char) :
    matchFmt ('%' :: 'd' :: fmt) input acc =
      (dCands input).findSome? (fun p =>
        matchFmt fmt (input.drop p.1) (updAcc 'd' p.2 acc)) := by
  simp [matchFmt, dirCands]

theorem fmt_d_sp_fail (fmtRest : List Char) (acc : DobAcc) (c1 c2 c3 : Char)
    (l : List Char) (h2 : pyIsSpace c2 = false) (h3 : pyIsSpace c3 = false) :
    matchFmt ('%' :: 'd' :: ' ' :: fmtRest) (c1 :: c2 :: c3 :: l) acc = none := by
  rw [matchFmt_d_arm]
  apply findSome?_all_none
  intro p hp
  rcases dCands_mem_consume _ p hp with h | h <;> rw [h]
  · exact matchFmt_sp_fail _ _ _ (runLen_cons_false _ h2)
  · exact matchFmt_sp_fail _ _ _ (runLen_cons_false _ h3)

theorem fmt_d_dash_fail (fmtRest : List Char) (acc : DobAcc) (c1 c2 c3 : Char)
    (l : List Char) (h2 : c2 ≠ '-') (h3 : c3 ≠ '-') :
    matchFmt ('%' :: 'd' :: '-' :: fmtRest) (c1 :: c2 :: c3 :: l) acc = none := by
  rw [matchFmt_d_arm]
  apply findSome?_all_none
  intro p hp
  rcases dCands_mem_consume _ p hp with h | h <;> rw [h]
  · exact matchFmt_dash_fail _ _ _ _ h2
  · exact matchFmt_dash_fail _ _ _ _ h3

theorem fmt_d_slash_fail (fmtRest : List Char) (acc : DobAcc) (c1 c2 c3 : Char)
    (l : List Char) (h2 : c2 ≠ '/') (h3 : c3 ≠ '/') :
    matchFmt ('%' :: 'd' :: '/' :: fmtRest) (c1 :: c2 :: c3 :: l) acc = none := by
  rw [matchFmt_d_arm]
  apply findSome?_all_none
  intro p hp
  rcases dCands_mem_consume _ p hp with h | h <;> rw [h]
  · exact matchFmt_slash_fail _ _ _ _ h2
  · exact matchFmt_slash_fail _ _ _ _ h3

theorem matchFmt_dash_step (fmtRest : List Char) (acc : DobAcc) (input : List Char) :
    matchFmt ('-' :: fmtRest) ('-' :: input) acc = matchFmt fmtRest input acc := by
  simp [matchFmt, (by decide : pyIsSpace '-' = false)]

theorem pad2_cons (n : Nat) (rest : List Char) :
    pad2 n ++ rest = Nat.digitChar (n / 10 % 10) :: Nat.digitChar (n % 10) :: rest := rfl

theorem pad4_cons (n : Nat) (rest : List Char) :
    pad4 n ++ rest = Nat.digitChar (n / 1000 % 10) :: Nat.digitChar (n / 100 % 10) ::
      Nat.digitChar (n / 10 % 10) :: Nat.digitChar (n % 10) :: rest := rfl

theorem matchFmt_Y_step (fmtRest : List Char) (acc : DobAcc) (y : Nat)
    (rest : List Char) (res : DobAcc) (hy : y ≤ 9999)
    (hcont : matchFmt fmtRest rest (updAcc 'Y' y acc) = some res) :
    matchFmt ('%' :: 'Y' :: fmtRest) (pad4 y ++ rest) acc = some res := by
  have harm : matchFmt ('%' :: 'Y' :: fmtRest) (pad4 y ++ rest) acc =
      (yCands (pad4 y ++ rest)).findSome? (fun p =>
        matchFmt fmtRest ((pad4 y ++ rest).drop p.1) (updAcc 'Y' p.2 acc)) := by
    simp [matchFmt, dirCands]
  rw [harm, pad4_cons]
  have h1 : y / 1000 % 10 < 10 := Nat.mod_lt _ (by norm_num)
  have h2 : y / 100 % 10 < 10 := Nat.mod_lt _ (by norm_num)
  have h3 : y / 10 % 10 < 10 := Nat.mod_lt _ (by norm_num)
  have h4 : y % 10 < 10 := Nat.mod_lt _ (by norm_num)
  have hval : 1000 * dval (Nat.digitChar (y / 1000 % 10)) +
      100 * dval (Nat.digitChar (y / 100 % 10)) +
      10 * dval (Nat.digitChar (y / 10 % 10)) + dval (Nat.digitChar (y % 10)) = y := by
    rw [(digitFacts _ h1).2.2.2.2.2.2, (digitFacts _ h2).2.2.2.2.2.2,
       (digitFacts _ h3).2.2.2.2.2.2, (digitFacts _ h4).2.2.2.2.2.2]
    omega
  have hcond : ((y / 1000 % 10).digitChar.isDigit && (y / 100 % 10).digitChar.isDigit &&
      (y / 10 % 10).digitChar.isDigit && (y % 10).digitChar.isDigit) = true := by
    simp [(digitFacts _ h1).1, (digitFacts _ h2).1, (digitFacts _ h3).1,
          (digitFacts _ h4).1]
  have hcands : yCands (Nat.digitChar (y / 1000 % 10) :: Nat.digitChar (y / 100 % 10) ::
      Nat.digitChar (y / 10 % 10) :: Nat.digitChar (y % 10) :: rest) = [(4, y)] := by
    show (if ((y / 1000 % 10).digitChar.isDigit && (y / 100 % 10).digitChar.isDigit &&
        (y / 10 % 10).digitChar.isDigit && (y % 10).digitChar.isDigit) = true then
        [(4, 1000 * dval (y / 1000 % 10).digitChar + 100 * dval (y / 100 % 10).digitChar +
          10 * dval (y / 10 % 10).digitChar + dval (y % 10).digitChar)]
      else []) = [(4, y)]
    rw [if_pos hcond, hval]
  rw [hcands]
  exact findSome?_first_some _ _ _ _ hcont

theorem mCands_ext (c1 c2 : Char) (r : List Char) :
    mCands (c1 :: c2 :: r) = mCands [c1, c2] := rfl

theorem matchFmt_m_step (fmtRest : List Char) (acc : DobAcc) (m : Nat)
    (rest : List Char) (res : DobAcc) (h1 : 1 ≤ m) (h2 : m < 13)
    (hcont : matchFmt fmtRest rest (updAcc 'm' m acc) = some res) :
    matchFmt ('%' :: 'm' :: fmtRest) (pad2 m ++ rest) acc = some res := by
  have harm : matchFmt ('%' :: 'm' :: fmtRest) (pad2 m ++ rest) acc =
      (mCands (pad2 m ++ rest)).findSome? (fun p =>
        matchFmt fmtRest ((pad2 m ++ rest).drop p.1) (updAcc 'm' p.2 acc)) := by
    simp [matchFmt, dirCands]
  rw [harm, pad2_cons, mCands_ext]
  have hp2 : mCands [Nat.digitChar (m / 10 % 10), Nat.digitChar (m % 10)] =
      mCands (pad2 m) := rfl
  rw [hp2]
  rcases mFirst m h1 h2 with h | h <;> rw [h] <;>
    exact findSome?_first_some _ _ _ _ hcont

theorem matchFmt_d_final (acc : DobAcc) (d0 : Nat) (h1 : 1 ≤ d0) (h2 : d0 < 32) :
    matchFmt ['%', 'd'] (pad2 d0) acc = some (updAcc 'd' d0 acc) := by
  rw [matchFmt_d_arm]
  have hcont : matchFmt [] ((pad2 d0).drop 2) (updAcc 'd' d0 acc) =
      some (updAcc 'd' d0 acc) := by
    simp [pad2, matchFmt]
  rcases dFinal d0 h1 h2 with h | h <;> rw [h] <;>
    exact findSome?_first_some _ _ _ _ hcont

theorem matchFmt_iso (y m d0 : Nat) (hy : y ≤ 9999) (hm1 : 1 ≤ m) (hm : m < 13)
    (hd1 : 1 ≤ d0) (hd : d0 < 32) :
    matchFmt ("%Y-%m-%d" : String).data (isoformat y m d0).data ⟨none, none, none⟩ =
      some ⟨some d0, some m, some y⟩ := by
  have hfmt : ("%Y-%m-%d" : String).data =
      '%' :: 'Y' :: '-' :: '%' :: 'm' :: '-' :: '%' :: 'd' :: [] := rfl
  have hiso : (isoformat y m d0).data =
      pad4 y ++ ('-' :: (pad2 m ++ '-' :: pad2 d0)) := by
    simp [isoformat]
  rw [hfmt, hiso]
  apply matchFmt_Y_step _ _ y _ _ hy
  rw [matchFmt_dash_step]
  apply matchFmt_m_step _ _ m _ _ hm1 hm
  rw [matchFmt_dash_step]
  have hfin := matchFmt_d_final
    (updAcc 'm' m (updAcc 'Y' y ⟨none, none, none⟩)) d0 hd1 hd
  rw [hfin]
  rfl

theorem map_noop {f : Char → Char} (l : List Char) (h : ∀ c ∈ l, f c = c) :
    l.map f = l := by
  induction l with
  | nil => rfl
  | cons a t ih => simp [h a (by simp), ih (fun x hx => h x (by simp [hx]))]

theorem collapseWsAux_noop (b : Bool) (l : List Char)
    (h : ∀ c ∈ l, pyIsSpace c = false) : collapseWsAux b l = l := by
  induction l generalizing b with
  | nil => rfl
  | cons a t ih =>
    simp [collapseWsAux, h a (by simp), ih _ (fun x hx => h x (by simp [hx]))]

theorem dropWhile_noop {p : Char → Bool} (l : List Char)
    (h : ∀ c ∈ l, p c = false) : l.dropWhile p = l := by
  cases l with
  | nil => rfl
  | cons a t => simp [List.dropWhile_cons, h a (by simp)]

theorem stripList_noop (p : Char → Bool) (l : List Char)
    (h : ∀ c ∈ l, p c = false) : stripList p l = l := by
  unfold stripList
  rw [dropWhile_noop l h,
      dropWhile_noop l.reverse (fun c hc => h c (List.mem_reverse.1 hc)),
      List.reverse_reverse]

theorem iso_chars (y m d0 : Nat) : ∀ c ∈ (isoformat y m d0).data,
    c ≠ '.' ∧ c ≠ ',' ∧ pyIsSpace c = false := by
  intro c hc
  have key : ∀ k, k < 10 →
      Nat.digitChar k ≠ '.' ∧ Nat.digitChar k ≠ ',' ∧
      pyIsSpace (Nat.digitChar k) = false := by
    intro k hk
    exact ⟨(digitFacts k hk).2.2.2.2.1, (digitFacts k hk).2.2.2.2.2.1,
           (digitFacts k hk).2.1⟩
  simp only [isoformat, pad4, pad2, List.mem_append, List.mem_cons,
    List.cons_append, List.nil_append, List.not_mem_nil, or_false] at hc
  rcases hc with rfl | rfl | rfl | rfl | rfl | rfl | rfl | rfl | rfl | rfl
  · exact key _ (Nat.mod_lt _ (by norm_num))
  · exact key _ (Nat.mod_lt _ (by norm_num))
  · exact key _ (Nat.mod_lt _ (by norm_num))
  · exact key _ (Nat.mod_lt _ (by norm_num))
  · exact ⟨by decide, by decide, by decide⟩
  · exact key _ (Nat.mod_lt _ (by norm_num))
  · exact key _ (Nat.mod_lt _ (by norm_num))
  · exact ⟨by decide, by decide, by decide⟩
  · exact key _ (Nat.mod_lt _ (by norm_num))
  · exact key _ (Nat.mod_lt _ (by norm_num))

theorem cleanDob_iso (y m d0 : Nat) : cleanDob (isoformat y m d0) = isoformat y m d0 := by
  have hch := iso_chars y m d0
  have hmap : (isoformat y m d0).data.map
      (fun c => if c = '.' || c = ',' then ' ' else c) = (isoformat y m d0).data :=
    map_noop _ (fun c hc => by simp [(hch c hc).1, (hch c hc).2.1])
  have hcoll : collapseWs (isoformat y m d0) = isoformat y m d0 := by
    unfold collapseWs
    rw [collapseWsAux_noop false _ (fun c hc => (hch c hc).2.2)]
  have hstrip : pyStrip (isoformat y m d0) = isoformat y m d0 := by
    unfold pyStrip
    rw [stripList_noop _ _ (fun c hc => (hch c hc).2.2)]
  unfold cleanDob
  rw [hmap]
  show pyStrip (collapseWs (isoformat y m d0)) = isoformat y m d0
  rw [hcoll, hstrip]

theorem validDate_bounds (y m d0 : Nat) (hv : isValidDate y m d0 = true) :
    1 ≤ y ∧ y ≤ 9999 ∧ 1 ≤ m ∧ m < 13 ∧ 1 ≤ d0 ∧ d0 < 32 := by
  unfold isValidDate at hv
  simp only [Bool.and_eq_true, decide_eq_true_eq] at hv
  have hdm : daysInMonth y m ≤ 31 := by
    unfold daysInMonth
    split_ifs <;> omega
  omega

theorem iso_data_cons (y m d0 : Nat) : (isoformat y m d0).data =
    Nat.digitChar (y / 1000 % 10) :: Nat.digitChar (y / 100 % 10) ::
    Nat.digitChar (y / 10 % 10) :: Nat.digitChar (y % 10) :: '-' ::
    Nat.digitChar (m / 10 % 10) :: Nat.digitChar (m % 10) :: '-' ::
    Nat.digitChar (d0 / 10 % 10) :: Nat.digitChar (d0 % 10) :: [] := rfl

theorem strptime_fmt1_iso (y m d0 : Nat) :
    strptimeDate "%d %B %Y" (isoformat y m d0) = none := by
  unfold strptimeDate
  have hB : pyIsSpace (Nat.digitChar (y / 100 % 10)) = false :=
    (digitFacts _ (Nat.mod_lt _ (by norm_num))).2.1
  have hC : pyIsSpace (Nat.digitChar (y / 10 % 10)) = false :=
    (digitFacts _ (Nat.mod_lt _ (by norm_num))).2.1
  have hm2 : matchFmt ("%d %B %Y" : String).data (isoformat y m d0).data
      ⟨none, none, none⟩ = none := by
    rw [iso_data_cons]
    exact fmt_d_sp_fail _ _ _ _ _ _ hB hC
  rw [hm2]

theorem strptime_fmt2_iso (y m d0 : Nat) :
    strptimeDate "%d %b %Y" (isoformat y m d0) = none := by
  unfold strptimeDate
  have hB : pyIsSpace (Nat.digitChar (y / 100 % 10)) = false :=
    (digitFacts _ (Nat.mod_lt _ (by norm_num))).2.1
  have hC : pyIsSpace (Nat.digitChar (y / 10 % 10)) = false :=
    (digitFacts _ (Nat.mod_lt _ (by norm_num))).2.1
  have hm2 : matchFmt ("%d %b %Y" : String).data (isoformat y m d0).data
      ⟨none, none, none⟩ = none := by
    rw [iso_data_cons]
    exact fmt_d_sp_fail _ _ _ _ _ _ hB hC
  rw [hm2]

theorem strptime_fmt3_iso (y m d0 : Nat) :
    strptimeDate "%d/%m/%Y" (isoformat y m d0) = none := by
  unfold strptimeDate
  have hB : Nat.digitChar (y / 100 % 10) ≠ '/' :=
    (digitFacts _ (Nat.mod_lt _ (by norm_num))).2.2.2.1
  have hC : Nat.digitChar (y / 10 % 10) ≠ '/' :=
    (digitFacts _ (Nat.mod_lt _ (by norm_num))).2.2.2.1
  have hm2 : matchFmt ("%d/%m/%Y" : String).data (isoformat y m d0).data
      ⟨none, none, none⟩ = none := by
    rw [iso_data_cons]
    exact fmt_d_slash_fail _ _ _ _ _ _ hB hC
  rw [hm2]

theorem strptime_fmt4_iso (y m d0 : Nat) :
    strptimeDate "%d-%m-%Y" (isoformat y m d0) = none := by
  unfold strptimeDate
  have hB : Nat.digitChar (y / 100 % 10) ≠ '-' :=
    (digitFacts _ (Nat.mod_lt _ (by norm_num))).2.2.1
  have hC : Nat.digitChar (y / 10 % 10) ≠ '-' :=
    (digitFacts _ (Nat.mod_lt _ (by norm_num))).2.2.1
  have hm2 : matchFmt ("%d-%m-%Y" : String).data (isoformat y m d0).data
      ⟨none, none, none⟩ = none := by
    rw [iso_data_cons]
    exact fmt_d_dash_fail _ _ _ _ _ _ hB hC
  rw [hm2]

theorem strptime_fmt5_iso (y m d0 : Nat) (hv : isValidDate y m d0 = true) :
    strptimeDate "%Y-%m-%d" (isoformat y m d0) = some (y, m, d0) := by
  obtain ⟨-, hy, hm1, hm, hd1, hd⟩ := validDate_bounds y m d0 hv
  unfold strptimeDate
  rw [matchFmt_iso y m d0 hy hm1 hm hd1 hd]
  show (if isValidDate y m d0 = true then some (y, m, d0) else none) = some (y, m, d0)
  rw [if_pos hv]

theorem normalize_dob_isoformat (y m d0 : Nat) (hv : isValidDate y m d0 = true) :
    normalize_dob (some (isoformat y m d0)) = some (isoformat y m d0) := by
  have hne : isoformat y m d0 ≠ "" := isoformat_ne_empty y m d0
  have hnd : normalize_dob (some (isoformat y m d0)) =
      (if isoformat y m d0 = "" then none
       else
         match dobFormats.findSome?
             (fun fmt => strptimeDate fmt (cleanDob (isoformat y m d0))) with
         | some (a, b, c) => some (isoformat a b c)
         | none => none) := rfl
  rw [hnd, if_neg hne, cleanDob_iso]
  have hfs : dobFormats.findSome? (fun fmt => strptimeDate fmt (isoformat y m d0)) =
      some (y, m, d0) := by
    simp only [dobFormats, List.findSome?_cons, strptime_fmt1_iso y m d0,
      strptime_fmt2_iso y m d0, strptime_fmt3_iso y m d0, strptime_fmt4_iso y m d0,
      strptime_fmt5_iso y m d0 hv]
  rw [hfs]

/-- C9: `normalize_dob` is idempotent on its own non-null output — the
ISO rendering it emits is re-parsed, by the `"%Y-%m-%d"` template and by no
earlier template in the ordered list, back to the same date. -/
theorem C9_normalize_dob_idempotent :
    ∀ s d, normalize_dob (some s) = some d → normalize_dob (some d) = some d := by
  intro s d h
  have hnd : normalize_dob (some s) =
      (if s = "" then none
       else
         match dobFormats.findSome? (fun fmt => strptimeDate fmt (cleanDob s)) with
         | some (y, m, d0) => some (isoformat y m d0)
         | none => none) := rfl
  rw [hnd] at h
  split at h
  · exact absurd h (by simp)
  · split at h
    · rename_i y m d0 heq
      injection h with h'
      have hv : isValidDate y m d0 = true := by
        obtain ⟨fmt, hmem, hfmt⟩ := List.exists_of_findSome?_eq_some heq
        exact strptimeDate_valid _ _ _ _ _ hfmt
      rw [← h']
      exact normalize_dob_isoformat y m d0 hv
    · exact absurd h (by simp)

theorem C9_witness :
    normalize_dob (some "17/05/1990") = some "1990-05-17" ∧
    normalize_dob (some "1990-05-17") = some "1990-05-17" :=
  ⟨by decide, C9_normalize_dob_idempotent "17/05/1990" "1990-05-17" (by decide)⟩

/-! ## C5, C6, C7: the name-resolver claims -/

theorem uint32_le_iff (a b : UInt32) : (a ≤ b) ↔ a.toNat ≤ b.toNat := by
  rw [UInt32.le_def, BitVec.le_def]
  rfl

theorem isAlpha_not_digit (c : Char) (h : c.isAlpha = true) : c.isDigit = false := by
  simp only [Char.isAlpha, Char.isUpper, Char.isLower, Char.isDigit, GE.ge,
    Bool.or_eq_true, Bool.and_eq_true, decide_eq_true_eq, uint32_le_iff] at *
  simp only [Bool.and_eq_false_iff, decide_eq_false_iff_not]
  have e48 : UInt32.toNat 48 = 48 := rfl
  have e57 : UInt32.toNat 57 = 57 := rfl
  have e65 : UInt32.toNat 65 = 65 := rfl
  have e90 : UInt32.toNat 90 = 90 := rfl
  have e97 : UInt32.toNat 97 = 97 := rfl
  have e122 : UInt32.toNat 122 = 122 := rfl
  rw [e48, e57]
  rw [e65, e90, e97, e122] at h
  omega

theorem toNat_ofNat_small (n : Nat) (h : n < 55296) : (Char.ofNat n).toNat = n := by
  unfold Char.ofNat
  rw [dif_pos (Or.inl h)]
  rfl

theorem toLower_toUpper (c : Char) : (c.toUpper).toLower = c.toLower := by
  simp only [Char.toUpper, Char.toLower]
  by_cases h : c.toNat ≥ 97 ∧ c.toNat ≤ 122
  · rw [if_pos h]
    have hto : (Char.ofNat (c.toNat - 32)).toNat = c.toNat - 32 :=
      toNat_ofNat_small _ (by omega)
    rw [hto]
    rw [if_pos (by omega : c.toNat - 32 ≥ 65 ∧ c.toNat - 32 ≤ 90)]
    rw [if_neg (by omega : ¬(c.toNat ≥ 65 ∧ c.toNat ≤ 90))]
    have harith : c.toNat - 32 + 32 = c.toNat := by omega
    rw [harith, Char.ofNat_toNat]
  · rw [if_neg h]

theorem toLower_toLower (c : Char) : (c.toLower).toLower = c.toLower := by
  simp only [Char.toLower]
  by_cases h : c.toNat ≥ 65 ∧ c.toNat ≤ 90
  · rw [if_pos h]
    have hto : (Char.ofNat (c.toNat + 32)).toNat = c.toNat + 32 :=
      toNat_ofNat_small _ (by omega)
    rw [hto]
    rw [if_neg (by omega : ¬(c.toNat + 32 ≥ 65 ∧ c.toNat + 32 ≤ 90))]
  · rw [if_neg h, if_neg h]

theorem titleAux_lower (b : Bool) (l : List Char) :
    (pyTitleAux b l).map Char.toLower = l.map Char.toLower := by
  induction l generalizing b with
  | nil => rfl
  | cons c r ih =>
    unfold pyTitleAux
    by_cases hc : c.isAlpha = true
    · rw [if_pos hc]
      cases b
      · simp [List.map_cons, ih, toLower_toUpper]
      · simp [List.map_cons, ih, toLower_toLower]
    · rw [if_neg hc]
      simp [List.map_cons, ih]

theorem pyLower_pyTitle (s : String) : pyLower (pyTitle s) = pyLower s :=
  congrArg String.mk (titleAux_lower false s.data)

theorem listStarts_iff (n : List Char) : ∀ h : List Char,
    listStarts n h = true ↔ n <+: h := by
  induction n with
  | nil => intro h; simp [listStarts]
  | cons a as ih =>
    intro h
    cases h with
    | nil => simp [listStarts]
    | cons b bs => simp [listStarts, ih, List.cons_prefix_cons]

theorem listInfix_iff (n : List Char) : ∀ h : List Char,
    listInfix n h = true ↔ n <:+: h := by
  intro h
  induction h with
  | nil =>
    simp [listInfix, listStarts_iff]
  | cons b bs ih =>
    rw [List.infix_cons_iff]
    simp [listInfix, listStarts_iff, ih]

theorem pyIn_iff (a b : String) : pyIn a b = true ↔ a.data <:+: b.data :=
  listInfix_iff a.data b.data

theorem take_drop_seg (l : List Char) (a b : Nat) : (l.drop a).take b <:+: l := by
  have h1 := List.take_prefix b (l.drop a)
  have h2 : l.drop a <:+ l := List.drop_suffix a l
  exact h1.isInfix.trans h2.isInfix

theorem take_runLen (p : Char → Bool) (l : List Char) :
    l.take (runLen p l) = l.takeWhile p := by
  induction l with
  | nil => rfl
  | cons a t ih =>
    by_cases h : p a = true
    · simp [runLen, List.takeWhile_cons, h] at ih ⊢
      exact ih
    · simp [runLen, List.takeWhile_cons, h]

theorem stripList_seg (p : Char → Bool) (l : List Char) : stripList p l <:+: l := by
  unfold stripList
  have h1 : l.dropWhile p <:+ l := List.dropWhile_suffix p
  have h2 : (l.dropWhile p).reverse.dropWhile p <:+ (l.dropWhile p).reverse :=
    List.dropWhile_suffix p
  have h3 : ((l.dropWhile p).reverse.dropWhile p).reverse <+: l.dropWhile p := by
    rw [← List.reverse_suffix, List.reverse_reverse]
    exact h2
  exact h3.isInfix.trans h1.isInfix

theorem pyStrip_data_seg (s : String) : (pyStrip s).data <:+: s.data :=
  stripList_seg pyIsSpace s.data

theorem takeWhile_mem (p : Char → Bool) (l : List Char) :
    ∀ c ∈ l.takeWhile p, p c = true := by
  intro c hc
  exact List.mem_takeWhile_imp hc

theorem labelClass_not_digit (c : Char) (h : labelClass c = true) :
    (!c.isDigit) = true := by
  unfold labelClass at h
  simp only [Bool.or_eq_true] at h
  rcases h with (h | h) | h
  · simp [isAlpha_not_digit c h]
  · unfold pyIsSpace at h
    simp only [Bool.or_eq_true, decide_eq_true_eq] at h
    rcases h with ((((h | h) | h) | h) | h) | h <;> subst h <;> decide
  · simp only [decide_eq_true_eq] at h
    subst h
    decide

theorem labelAfterKeyword_spec (lp : List Char) (g : String)
    (h : labelAfterKeyword lp = some g) :
    g.data <:+: lp ∧ ∀ c ∈ g.data, labelClass c = true := by
  unfold labelAfterKeyword at h
  obtain ⟨l1, hl1mem, h1⟩ := List.exists_of_findSome?_eq_some h
  cases hd : lp.drop l1 with
  | nil => rw [hd] at h1; exact absurd h1 (by simp)
  | cons c r =>
    rw [hd] at h1
    have h1' : (if (c = ':' || c = '-') = true then
        (countdownTo0 (runLen pyIsSpace r)).findSome? (fun l2 =>
          if 1 ≤ runLen labelClass (r.drop l2) then
            some (String.mk ((r.drop l2).take (runLen labelClass (r.drop l2))))
          else none)
      else none) = some g := h1
    split at h1'
    · obtain ⟨l2, hl2mem, h2⟩ := List.exists_of_findSome?_eq_some h1'
      split at h2
      · have hg : g = String.mk ((r.drop l2).take (runLen labelClass (r.drop l2))) :=
          (Option.some.inj h2).symm
        have hdata : g.data = (r.drop l2).take (runLen labelClass (r.drop l2)) := by
          rw [hg]
        constructor
        · rw [hdata]
          have hrsuf : r <:+ lp := by
            have hcr : c :: r <:+ lp := hd ▸ List.drop_suffix l1 lp
            exact (List.suffix_cons c r).trans hcr
          have hinf : (r.drop l2).take (runLen labelClass (r.drop l2)) <:+: r :=
            take_drop_seg r l2 _
          exact hinf.trans hrsuf.isInfix
        · intro ch hch
          rw [hdata, take_runLen] at hch
          exact takeWhile_mem _ _ ch hch
      · exact absurd h2 (by simp)
    · exact absurd h1' (by simp)

theorem labelGroupSearch_spec : ∀ (l : List Char) (g : String),
    labelGroupSearch l = some g →
    ∃ lp, lp <:+ l ∧ labelAfterKeyword lp = some g := by
  intro l
  induction l with
  | nil => intro g h; exact absurd h (by simp [labelGroupSearch])
  | cons c r ih =>
    intro g h
    unfold labelGroupSearch at h
    cases hk : labelKeywords.findSome? (fun kw =>
        if lowerStartsWith (c :: r) kw then
          labelAfterKeyword ((c :: r).drop kw.length)
        else none) with
    | some g2 =>
      rw [hk] at h
      have hg : g2 = g := Option.some.inj h
      subst hg
      obtain ⟨kw, hkmem, hkw⟩ := List.exists_of_findSome?_eq_some hk
      split at hkw
      · exact ⟨(c :: r).drop kw.length, List.drop_suffix _ _, hkw⟩
      · exact absurd hkw (by simp)
    | none =>
      rw [hk] at h
      obtain ⟨lp, hsuf, hla⟩ := ih g h
      exact ⟨lp, hsuf.trans (List.suffix_cons c r), hla⟩

theorem labelGroup_spec (line : String) (g : String) (h : labelGroup line = some g) :
    g.data <:+: line.data ∧ ∀ c ∈ g.data, labelClass c = true := by
  obtain ⟨lp, hsuf, hla⟩ := labelGroupSearch_spec line.data g h
  obtain ⟨hinf, hcls⟩ := labelAfterKeyword_spec lp g hla
  exact ⟨hinf.trans hsuf.isInfix, hcls⟩

theorem strategy1Line_inv (line c : String) (h : strategy1Line line = some c) :
    ∃ g, labelGroup line = some g ∧ c = pyStrip (removeDigits g) := by
  unfold strategy1Line at h
  cases hg : labelGroup line with
  | none => rw [hg] at h; exact absurd h (by simp)
  | some g =>
    rw [hg] at h
    have h' : (if is_valid_candidate (pyStrip (removeDigits g)) "" = true then
        some (pyStrip (removeDigits g)) else none) = some c := h
    split at h'
    · exact ⟨g, rfl, (Option.some.inj h').symm⟩
    · exact absurd h' (by simp)

theorem strategies123_cases (ents : List String) (lines : List String) (r : String)
    (h : strategies123 ents lines = some r) :
    strategy1 lines = some r ∨ strategy2 ents lines = some r ∨
      strategy3 lines = some r := by
  unfold strategies123 at h
  cases h1 : strategy1 lines with
  | some a =>
    rw [h1] at h
    exact Or.inl (congrArg some (Option.some.inj h))
  | none =>
    rw [h1] at h
    cases h2 : strategy2 ents lines with
    | some a =>
      rw [h2] at h
      exact Or.inr (Or.inl (congrArg some (Option.some.inj h)))
    | none =>
      rw [h2] at h
      exact Or.inr (Or.inr h)

theorem entCandidate_inv (lines : List String) (e cand : String)
    (h : entCandidate lines e = some cand) :
    (cand = pyStrip (collapseWs (mapNonAlphaToSpace
        (((lines.take 20).find? (fun l => pyIn (pyStrip e) l)).getD ""))) ∧
      is_valid_candidate cand
        (((lines.take 20).find? (fun l => pyIn (pyStrip e) l)).getD "") = true) ∨
    (cand = pyStrip e ∧
      is_valid_candidate (pyStrip (removeNonAlphaWs (pyStrip e)))
        (((lines.take 20).find? (fun l => pyIn (pyStrip e) l)).getD "") = true) := by
  have h' : (if is_valid_candidate
        (pyStrip (collapseWs (mapNonAlphaToSpace
          (((lines.take 20).find? (fun l => pyIn (pyStrip e) l)).getD ""))))
        (((lines.take 20).find? (fun l => pyIn (pyStrip e) l)).getD "") = true then
      some (pyStrip (collapseWs (mapNonAlphaToSpace
        (((lines.take 20).find? (fun l => pyIn (pyStrip e) l)).getD ""))))
    else if is_valid_candidate (pyStrip (removeNonAlphaWs (pyStrip e)))
        (((lines.take 20).find? (fun l => pyIn (pyStrip e) l)).getD "") = true then
      some (pyStrip e)
    else none) = some cand := h
  split at h'
  · rename_i hc
    left
    refine ⟨(Option.some.inj h').symm, ?_⟩
    rw [← Option.some.inj h']
    exact hc
  · split at h'
    · rename_i hc2
      right
      exact ⟨(Option.some.inj h').symm, hc2⟩
    · exact absurd h' (by simp)

theorem strategy3Line_inv (line cand : String) (h : strategy3Line line = some cand) :
    cand = pyTitle (pyStrip (removeNonAlphaWs line)) := by
  have h' : (if is_valid_candidate (pyStrip (removeNonAlphaWs line)) line = true then
      if (!(line.data.any (fun c =>
          c.isDigit || c = ',' || c = '@' || c = '/'))) = true then
        if (pyIstitle (pyStrip (removeNonAlphaWs line)) ||
            pyIsupper (pyStrip (removeNonAlphaWs line))) = true then
          some (pyTitle (pyStrip (removeNonAlphaWs line)))
        else none
      else none
    else none) = some cand := h
  split at h'
  · split at h'
    · split at h'
      · exact (Option.some.inj h').symm
      · exact absurd h' (by simp)
    · exact absurd h' (by simp)
  · exact absurd h' (by simp)

theorem strategy1_no_NF (lines : List String)
    (H : ∀ l ∈ lines.take 20, l ≠ "Mother: Nicole Fernandes" →
      pyIn "Nicole Fernandes" l = false) :
    strategy1 lines ≠ some "Nicole Fernandes" := by
  intro h
  obtain ⟨l, hlmem, hline⟩ := List.exists_of_findSome?_eq_some h
  obtain ⟨g, hg, hclean⟩ := strategy1Line_inv l _ hline
  obtain ⟨hinf, hcls⟩ := labelGroup_spec l g hg
  have hrd : removeDigits g = g := by
    unfold removeDigits
    rw [List.filter_eq_self.mpr (fun c hc => labelClass_not_digit c (hcls c hc))]
  rw [hrd] at hclean
  have hNFinf : ("Nicole Fernandes" : String).data <:+: l.data := by
    have h1 : ("Nicole Fernandes" : String).data = (pyStrip g).data :=
      congrArg String.data hclean
    rw [h1]
    exact (pyStrip_data_seg g).trans hinf
  have hpy : pyIn "Nicole Fernandes" l = true := (pyIn_iff _ _).mpr hNFinf
  by_cases hl : l = "Mother: Nicole Fernandes"
  · subst hl
    rw [(by decide : labelGroup "Mother: Nicole Fernandes" = (none : Option String))] at hg
    exact Option.noConfusion hg
  · rw [H l hlmem hl] at hpy
    exact Bool.noConfusion hpy

theorem strategy2_no_NF (lines : List String) (ents : List String)
    (H1 : ∀ l ∈ lines.take 20, l ≠ "Mother: Nicole Fernandes" →
      pyIn "Nicole Fernandes" l = false)
    (H2 : ∀ l ∈ lines.take 20, l ≠ "Mother: Nicole Fernandes" →
      pyStrip (collapseWs (mapNonAlphaToSpace l)) ≠ "Nicole Fernandes")
    (Hents : ∀ e ∈ ents, ∃ l ∈ lines.take 20, pyIn (pyStrip e) l = true) :
    strategy2 ents lines ≠ some "Nicole Fernandes" := by
  intro h
  obtain ⟨e, hemem, hec⟩ := List.exists_of_findSome?_eq_some h
  cases hfind : (lines.take 20).find? (fun l => pyIn (pyStrip e) l) with
  | none =>
    obtain ⟨l, hlmem, hpy⟩ := Hents e hemem
    have hnone := List.find?_eq_none.mp hfind l hlmem
    exact hnone hpy
  | some l0 =>
    have hp : pyIn (pyStrip e) l0 = true := List.find?_some hfind
    have hmem : l0 ∈ lines.take 20 := List.mem_of_find?_eq_some hfind
    have hinv := entCandidate_inv lines e _ hec
    rw [hfind] at hinv
    simp only [Option.getD_some] at hinv
    rcases hinv with ⟨hcand, hval⟩ | ⟨hcand, hval⟩
    · by_cases hl : l0 = "Mother: Nicole Fernandes"
      · subst hl
        rw [(by decide : pyStrip (collapseWs (mapNonAlphaToSpace
          "Mother: Nicole Fernandes")) = "Mother Nicole Fernandes")] at hcand
        exact absurd hcand (by decide)
      · exact (H2 l0 hmem hl) hcand.symm
    · rw [← hcand] at hp
      by_cases hl : l0 = "Mother: Nicole Fernandes"
      · subst hl
        rw [← hcand] at hval
        exact absurd hval (by decide)
      · rw [H1 l0 hmem hl] at hp
        exact Bool.noConfusion hp

theorem strategy3_no_NF (lines : List String)
    (H3 : ∀ l ∈ lines.take 20, l ≠ "Mother: Nicole Fernandes" →
      pyLower (pyStrip (removeNonAlphaWs l)) ≠ "nicole fernandes") :
    strategy3 lines ≠ some "Nicole Fernandes" := by
  intro h
  obtain ⟨l, hlmem10, hline⟩ := List.exists_of_findSome?_eq_some h
  have hlmem : l ∈ lines.take 20 := by
    have heq : lines.take 10 = (lines.take 20).take 10 := by
      rw [List.take_take]
      norm_num
    rw [heq] at hlmem10
    exact List.take_subset _ _ hlmem10
  have hcand := strategy3Line_inv l _ hline
  have hlow2 : pyLower (pyStrip (removeNonAlphaWs l)) = "nicole fernandes" := by
    calc pyLower (pyStrip (removeNonAlphaWs l))
        = pyLower (pyTitle (pyStrip (removeNonAlphaWs l))) := (pyLower_pyTitle _).symm
      _ = pyLower "Nicole Fernandes" := by rw [← hcand]
      _ = "nicole fernandes" := by decide
  by_cases hl : l = "Mother: Nicole Fernandes"
  · subst hl
    exact absurd hlow2 (by decide)
  · exact (H3 l hlmem hl) hlow2

/-- C5 (amended): in any text whose header lines other than the literal
line `"Mother: Nicole Fernandes"` neither contain `"Nicole Fernandes"`,
nor collapse (letters-to-space) to it, nor reduce (letters-only, lowered)
to `"nicole fernandes"`, and whose PERSON entities each occur inside some
header line (as single-line spaCy spans do), `extract_name` called without
an email — as the pipeline calls it — never returns
`"Nicole Fernandes"`: every candidate drawn from the `Mother:` line is
rejected because its context line contains the blocklisted word
`mother`. -/
theorem C5_mother_context_rejected :
    ∀ (ents : List String) (text : String),
      (∀ l ∈ (nameLines text).take 20, l ≠ "Mother: Nicole Fernandes" →
        pyIn "Nicole Fernandes" l = false ∧
        pyStrip (collapseWs (mapNonAlphaToSpace l)) ≠ "Nicole Fernandes" ∧
        pyLower (pyStrip (removeNonAlphaWs l)) ≠ "nicole fernandes") →
      (∀ e ∈ ents, ∃ l ∈ (nameLines text).take 20, pyIn (pyStrip e) l = true) →
      extract_name ents text none ≠ some "Nicole Fernandes" := by
  intro ents text H Hents hcontra
  unfold extract_name at hcontra
  cases hs : strategies123 ents (nameLines text) with
  | none =>
    rw [hs] at hcontra
    exact Option.noConfusion (hcontra : (none : Option String) = some "Nicole Fernandes")
  | some n =>
    rw [hs] at hcontra
    have hn : n = "Nicole Fernandes" := Option.some.inj hcontra
    subst hn
    rcases strategies123_cases _ _ _ hs with h | h | h
    · exact strategy1_no_NF _ (fun l hm hne => (H l hm hne).1) h
    · exact strategy2_no_NF _ _ (fun l hm hne => (H l hm hne).1)
        (fun l hm hne => (H l hm hne).2.1) Hents h
    · exact strategy3_no_NF _ (fun l hm hne => (H l hm hne).2.2) h

theorem C5_witness :
    extract_name ["Nicole Fernandes"] "Mother: Nicole Fernandes" none ≠
      some "Nicole Fernandes" :=
  C5_mother_context_rejected ["Nicole Fernandes"] "Mother: Nicole Fernandes"
    (by decide) (by decide)

theorem C5_counterexample :
    ((nameLines "Nic-ole Fernandes\nMother: Nicole Fernandes").all (fun l =>
      !(pyIn "Nicole Fernandes" l) || (l == "Mother: Nicole Fernandes"))) = true ∧
    extract_name [] "Nic-ole Fernandes\nMother: Nicole Fernandes" none =
      some "Nicole Fernandes" := by
  refine ⟨by decide, by decide⟩

theorem findSome?_append_left_none {α β : Type} (l1 l2 : List α) (f : α → Option β)
    (h : ∀ a ∈ l1, f a = none) : (l1 ++ l2).findSome? f = l2.findSome? f := by
  induction l1 with
  | nil => rfl
  | cons a t ih =>
    simp only [List.cons_append, List.findSome?_cons, h a (by simp)]
    exact ih (fun x hx => h x (by simp [hx]))

/-- C6 (amended): whenever `"Name: John Smith"` appears among the first 20
non-blank stripped lines and no earlier such line produces a labelled-field
candidate, `extract_name` returns `"John Smith"` through strategy 1 — for
any entity list and any email, i.e. regardless of any other noise in the
rest of the document. -/
theorem C6_labeled_name_first_match :
    ∀ (ents : List String) (text : String) (email : Option String)
      (pre post : List String),
      (nameLines text).take 20 = pre ++ "Name: John Smith" :: post →
      (∀ l ∈ pre, strategy1Line l = none) →
      extract_name ents text email = some "John Smith" := by
  intro ents text email pre post htake hpre
  have hs1 : strategy1 (nameLines text) = some "John Smith" := by
    unfold strategy1
    rw [htake, findSome?_append_left_none _ _ _ hpre]
    exact findSome?_first_some _ _ _ _ (by decide)
  unfold extract_name strategies123
  rw [hs1]

theorem C6_witness :
    extract_name [] "Name: John Smith" none = some "John Smith" :=
  C6_labeled_name_first_match [] "Name: John Smith" none [] []
    (by decide) (by simp)

theorem C6_counterexample :
    (nameLines "Name: Jane Austen\nName: John Smith").contains "Name: John Smith" = true ∧
    extract_name [] "Name: Jane Austen\nName: John Smith" none = some "Jane Austen" ∧
    extract_name [] "Name: Jane Austen\nName: John Smith" none ≠ some "John Smith" := by
  refine ⟨by decide, by decide, by decide⟩

/-- C7 (amended): when `extract_name` is handed the extracted email
`"john.doe99@example.com"` — as the email-derived strategy prescribes —
and the three text-driven strategies produce no candidate, it returns
`"John Doe"`; the orchestrated record itself never exercises this
strategy (see the C8 analysis). -/
theorem C7_email_derived_name :
    ∀ (ents : List String) (text : String),
      extract_email text = some "john.doe99@example.com" →
      strategies123 ents (nameLines text) = none →
      extract_name ents text (extract_email text) = some "John Doe" := by
  intro ents text hemail hstrat
  unfold extract_name
  rw [hstrat]
  show strategy4 (extract_email text) = some "John Doe"
  rw [hemail]
  decide

theorem C7_witness :
    extract_name [] "Email: john.doe99@example.com"
      (extract_email "Email: john.doe99@example.com") = some "John Doe" :=
  C7_email_derived_name [] "Email: john.doe99@example.com" (by decide) (by decide)

theorem C7_counterexample :
    (extract_entities [] "Email: john.doe99@example.com").email =
      some "john.doe99@example.com" ∧
    strategies123 [] (nameLines "Email: john.doe99@example.com") = none ∧
    (extract_entities [] "Email: john.doe99@example.com").name = none ∧
    (extract_entities [] "Email: john.doe99@example.com").name ≠ some "John Doe" := by
  refine ⟨by decide, by decide, by decide, by decide⟩
